import Mathlib

/-!
Verification development for the secure-web-proxy repository (src/src/app.ts).

The TypeScript source is shallowly embedded: JavaScript strings are modelled
as `List Char`, the process-wide `Map` objects as functions into `Option`,
and the CONNECT handler as a pure function from its inputs (configuration,
mutable state, request, and the answers the DoH service would deliver) to an
outcome record describing the responses written, the final state, and the
upstream connection attempt.  Machine numbers that the code compares against
env-configured bounds are modelled as `Int`/`ℚ`.
-/

namespace Swp

/-- Shorthand: the character list of a string literal. -/
def chars (s : String) : List Char := s.data

/-! ## Basic character and string helpers (models of JS string primitives) -/

/-- Model of JS `toLowerCase` on one character, restricted to ASCII letters
(the only case-carrying characters that can occur in a syntactically valid
IP address or in the `Basic` auth scheme token). -/
def lowerChar (c : Char) : Char :=
  match c with
  | 'A' => 'a' | 'B' => 'b' | 'C' => 'c' | 'D' => 'd' | 'E' => 'e'
  | 'F' => 'f' | 'G' => 'g' | 'H' => 'h' | 'I' => 'i' | 'J' => 'j'
  | 'K' => 'k' | 'L' => 'l' | 'M' => 'm' | 'N' => 'n' | 'O' => 'o'
  | 'P' => 'p' | 'Q' => 'q' | 'R' => 'r' | 'S' => 's' | 'T' => 't'
  | 'U' => 'u' | 'V' => 'v' | 'W' => 'w' | 'X' => 'x' | 'Y' => 'y'
  | 'Z' => 'z' | c => c

/-- Model of JS `String.prototype.toLowerCase`. -/
def lower (s : List Char) : List Char := s.map lowerChar

/-- Whitespace characters stripped by JS `String.prototype.trim`. -/
def isWsChar (c : Char) : Bool :=
  c = ' ' ∨ c = '\t' ∨ c = '\n' ∨ c = '\r' ∨ c = '\x0b' ∨ c = '\x0c'

/-- Model of JS `String.prototype.trim`. -/
def trim (s : List Char) : List Char :=
  ((s.dropWhile isWsChar).reverse.dropWhile isWsChar).reverse

/-- Boolean prefix test, the model of JS `String.prototype.startsWith`. -/
def startsWithL : List Char → List Char → Bool
  | [], _ => true
  | _ :: _, [] => false
  | p :: ps, c :: cs => p = c && startsWithL ps cs

/-- Model of JS `String.prototype.split` with a one-character separator. -/
def splitOnChar (sep : Char) : List Char → List (List Char)
  | [] => [[]]
  | c :: r =>
    let rest := splitOnChar sep r
    if c = sep then [] :: rest
    else
      match rest with
      | [] => [[c]]
      | h :: t => (c :: h) :: t

/-- Inverse of `splitOnChar`: re-join the parts with the separator. -/
def unsplit (sep : Char) : List (List Char) → List Char
  | [] => []
  | [p] => p
  | p :: ps => p ++ sep :: unsplit sep ps

/-- Decimal digit value, if the character is a digit. -/
def digitVal (c : Char) : Option Nat :=
  match c with
  | '0' => .some 0 | '1' => .some 1 | '2' => .some 2 | '3' => .some 3
  | '4' => .some 4 | '5' => .some 5 | '6' => .some 6 | '7' => .some 7
  | '8' => .some 8 | '9' => .some 9 | _ => .none

/-- Lower-case hexadecimal digit value (inputs are lower-cased first). -/
def hexVal (c : Char) : Option Nat :=
  match c with
  | '0' => .some 0 | '1' => .some 1 | '2' => .some 2 | '3' => .some 3
  | '4' => .some 4 | '5' => .some 5 | '6' => .some 6 | '7' => .some 7
  | '8' => .some 8 | '9' => .some 9
  | 'a' => .some 10 | 'b' => .some 11 | 'c' => .some 12 | 'd' => .some 13
  | 'e' => .some 14 | 'f' => .some 15 | _ => .none

/-- Value of a decimal digit string. -/
def decNat (ds : List Char) : Nat :=
  ds.foldl (fun a c => a * 10 + (digitVal c).getD 0) 0

/-- Value of a (lower-case) hexadecimal digit string. -/
def hexNat (ds : List Char) : Nat :=
  ds.foldl (fun a c => a * 16 + (hexVal c).getD 0) 0

/-! ## Model of the JS `Number` conversion

`jsNumber s = some q` means `Number(s)` is the finite number `q`;
`none` means `Number(s)` is `NaN` or `±Infinity` (the only uses in the
source gate the value with `Number.isFinite` or compare it with small
integers, and both treat `NaN` and infinities alike as "no usable value").
Digit strings longer than 2^53 lose precision in JS; that regime is
irrelevant to every property below (such ports are rejected or unchecked
either way), so the model keeps exact values. -/

/-- Exponent part of a JS decimal literal: `e`/`E`, optional sign, digits. -/
def parseExp (t : List Char) : Option Int :=
  match t with
  | [] => some 0
  | 'e' :: r | 'E' :: r =>
    match r with
    | '+' :: ds => if ds ≠ [] ∧ ds.all (fun c => (digitVal c).isSome) then some (decNat ds) else none
    | '-' :: ds => if ds ≠ [] ∧ ds.all (fun c => (digitVal c).isSome) then some (-(decNat ds : Int)) else none
    | ds => if ds ≠ [] ∧ ds.all (fun c => (digitVal c).isSome) then some (decNat ds) else none
  | _ => none

/-- Decimal part of a JS number: digits, optional fraction, optional exponent. -/
def parseDec (t : List Char) : Option ℚ :=
  let ip := t.takeWhile (fun c => (digitVal c).isSome)
  let r1 := t.dropWhile (fun c => (digitVal c).isSome)
  match r1 with
  | [] => if ip = [] then none else some (decNat ip)
  | '.' :: r2 =>
    let fp := r2.takeWhile (fun c => (digitVal c).isSome)
    let r3 := r2.dropWhile (fun c => (digitVal c).isSome)
    if ip = [] ∧ fp = [] then none
    else
      match parseExp r3 with
      | none => none
      | some e =>
        let base : ℚ := (decNat ip : ℚ) + (decNat fp : ℚ) / ((10 : ℚ) ^ fp.length)
        some (base * (10 : ℚ) ^ e)
  | _ =>
    match parseExp r1 with
    | none => none
    | some e => if ip = [] then none else some ((decNat ip : ℚ) * (10 : ℚ) ^ e)

/-- Radix-prefixed JS literals `0x…`, `0o…`, `0b…`. -/
def parseRadix (t : List Char) : Option ℚ :=
  match t with
  | '0' :: x :: r =>
    if x = 'x' ∨ x = 'X' then
      if r ≠ [] ∧ r.all (fun c => (hexVal (lowerChar c)).isSome) then some (hexNat (lower r)) else none
    else if x = 'o' ∨ x = 'O' then
      if r ≠ [] ∧ r.all (fun c => (digitVal c).isSome ∧ c ≠ '8' ∧ c ≠ '9')
      then some (r.foldl (fun a c => a * 8 + (digitVal c).getD 0) 0 : Nat) else none
    else if x = 'b' ∨ x = 'B' then
      if r ≠ [] ∧ r.all (fun c => c = '0' ∨ c = '1')
      then some (r.foldl (fun a c => a * 2 + (digitVal c).getD 0) 0 : Nat) else none
    else none
  | _ => none

/-- Unsigned part of `Number(·)`. -/
def jsNumPos (t : List Char) : Option ℚ :=
  if t = chars "Infinity" then none
  else
    match parseRadix t with
    | some q => some q
    | none => parseDec t

/-- Model of JS `Number(string)` (see the note above `parseExp`). -/
def jsNumber (s : List Char) : Option ℚ :=
  let t := trim s
  if t = [] then some 0
  else
    match t with
    | '+' :: r => if r = [] then none else jsNumPos r
    | '-' :: r => if r = [] then none else (jsNumPos r).map Neg.neg
    | _ => jsNumPos t

/-! ## Model of Node's `net.isIP` -/

/-- One decimal octet of a dotted-quad IPv4 address: 1–3 digits, no leading
zero (except "0" itself), value ≤ 255.  Node's validator enforces exactly
these rules. -/
def parseOctet (t : List Char) : Option Nat :=
  if t ≠ [] ∧ t.length ≤ 3 ∧ t.all (fun c => (digitVal c).isSome) ∧
     (t.length = 1 ∨ t.head? ≠ some '0') ∧ decNat t ≤ 255
  then some (decNat t) else none

/-- IPv4 dotted-quad parser (the `net.isIP(ip) === 4` case), returning the
four octet values. -/
def parseIPv4 (s : List Char) : Option (Nat × Nat × Nat × Nat) :=
  match splitOnChar '.' s with
  | [t1, t2, t3, t4] =>
    match parseOctet t1, parseOctet t2, parseOctet t3, parseOctet t4 with
    | some a, some b, some c, some d => some (a, b, c, d)
    | _, _, _, _ => none
  | _ => none

/-- One hexadecimal IPv6 group: 1–4 hex digits (input already lower-cased). -/
def parseHexChunk (t : List Char) : Option Nat :=
  if t ≠ [] ∧ t.length ≤ 4 ∧ t.all (fun c => (hexVal c).isSome)
  then some (hexNat t) else none

/-- A trailing dotted-quad inside an IPv6 address contributes two 16-bit
groups. -/
def parseV4Chunk (c : List Char) : Option (Nat × Nat) :=
  match parseIPv4 c with
  | some (o1, o2, o3, o4) => some (o1 * 256 + o2, o3 * 256 + o4)
  | none => none

/-- Parse a colon-separated chunk list into 16-bit group values; a dotted
quad is admitted only as the final chunk and only when `v4ok`. -/
def parseChunks : List (List Char) → Bool → Option (List Nat)
  | [], _ => some []
  | [c], v4ok =>
    (match parseHexChunk c with
     | some g => some [g]
     | none =>
       if v4ok then (parseV4Chunk c).map (fun p => [p.1, p.2]) else none)
  | c :: rest, v4ok =>
    match parseHexChunk c, parseChunks rest v4ok with
    | some g, some gs => some (g :: gs)
    | _, _ => none

/-- Group sequence of one side of an IPv6 address (empty side ⇒ no groups). -/
def parseGroupSeq (l : List Char) (v4ok : Bool) : Option (List Nat) :=
  if l = [] then some [] else parseChunks (splitOnChar ':' l) v4ok

/-- Split at the first `::`, if any. -/
def splitDoubleColon : List Char → Option (List Char × List Char)
  | [] => none
  | ':' :: ':' :: r => some ([], r)
  | c :: r => (splitDoubleColon r).map (fun p => (c :: p.1, p.2))

/-- IPv6 parser on a lower-cased character list, yielding the eight 16-bit
group values (big-endian). -/
def parseIPv6core (l : List Char) : Option (List Nat) :=
  match splitDoubleColon l with
  | some (lft, rgt) =>
    match parseGroupSeq lft false, parseGroupSeq rgt true with
    | some lg, some rg =>
      if lg.length + rg.length ≤ 7
      then some (lg ++ List.replicate (8 - (lg.length + rg.length)) 0 ++ rg)
      else none
    | _, _ => none
  | none =>
    match parseGroupSeq l true with
    | some gs => if gs.length = 8 then some gs else none
    | none => none

/-- IPv6 parser on raw input (`net.isIP(ip) === 6` case); hex digits are
case-insensitive, modelled by lower-casing first. -/
def parseIPv6 (s : List Char) : Option (List Nat) :=
  parseIPv6core (lower s)

/-- Model of Node `net.isIP`: 4, 6, or 0 (not an IP literal). -/
def isIP (s : List Char) : Nat :=
  if (parseIPv4 s).isSome then 4
  else if (parseIPv6 s).isSome then 6
  else 0

/-! ## Trust Classifier (`isPrivateIPv4`, `isPrivateIPv6`, `isBlockedIp`) -/

/-- JS loose numeric comparison helpers: a comparison with `NaN`/`undefined`
(modelled as `none`) is false. -/
def jsEq (x : Option ℚ) (n : ℚ) : Bool :=
  match x with | some q => q = n | none => false

/-- Comparison `x >= n` on a JS number-or-NaN. -/
def jsGe (x : Option ℚ) (n : ℚ) : Bool :=
  match x with | some q => n ≤ q | none => false

/-- Comparison `x <= n` on a JS number-or-NaN. -/
def jsLe (x : Option ℚ) (n : ℚ) : Bool :=
  match x with | some q => q ≤ n | none => false

/-- Source `isPrivateIPv4` (app.ts:45-57): split on `.`, convert the first
two parts with `Number`, and test the enumerated ranges. -/
def isPrivateIPv4 (ip : List Char) : Bool :=
  let parts := (splitOnChar '.' ip).map jsNumber
  let a := parts.getD 0 none
  let b := parts.getD 1 none
  jsEq a 10 ||
  (jsEq a 172 && jsGe b 16 && jsLe b 31) ||
  (jsEq a 192 && jsEq b 168) ||
  jsEq a 127 ||
  (jsEq a 169 && jsEq b 254) ||
  (jsEq a 100 && jsGe b 64 && jsLe b 127) ||
  jsEq a 0 ||
  (jsGe a 224 && jsLe a 239) ||
  jsGe a 240

/-- Source `isPrivateIPv6` (app.ts:60-67): lower-case, then compare against
the two exact spellings and the five textual prefixes. -/
def isPrivateIPv6 (ip : List Char) : Bool :=
  let v := lower ip
  v = chars "::" || v = chars "::1" ||
  startsWithL (chars "fc") v || startsWithL (chars "fd") v ||
  startsWithL (chars "fe8") v || startsWithL (chars "fe9") v ||
  startsWithL (chars "fea") v || startsWithL (chars "feb") v ||
  startsWithL (chars "ff") v

/-- Source `isBlockedIp` (app.ts:69-74); `blockPrivate` is the
`BLOCK_PRIVATE` configuration flag. -/
def isBlockedIp (blockPrivate : Bool) (ip : List Char) : Bool :=
  let kind := isIP ip
  if kind = 0 then true
  else if ¬blockPrivate then false
  else if kind = 4 then isPrivateIPv4 ip else isPrivateIPv6 ip

/-! ## Authority Parser (`parseHostPort`, app.ts:157-180) -/

/-- Result type of `parseHostPort`; the port carries the exact value JS
`Number` produced (a rational, since `Number` can yield fractions). -/
structure Authority where
  host : List Char
  port : ℚ
deriving DecidableEq

/-- Model of the regex `^\[([^\]]+)\]:(\d+)$`: bracketed host part (non-empty,
no `]`), then `:`, then one or more digits running to the end. -/
def bracketMatch (s : List Char) : Option (List Char × List Char) :=
  match s with
  | '[' :: rest =>
    let inside := rest.takeWhile (fun c => c ≠ ']')
    (match rest.dropWhile (fun c => c ≠ ']') with
     | ']' :: ':' :: ds =>
       if inside ≠ [] ∧ ds ≠ [] ∧ ds.all (fun c => (digitVal c).isSome)
       then some (inside, ds) else none
     | _ => none)
  | _ => none

/-- Source `parseHostPort`: accepts `host:port`, `[ipv6]:port`, or bare
`host` (port 443).  Note the bracket branch takes `Number(match[2])` with no
range check, while the two-part branch requires finite, `> 0`, `≤ 65535`. -/
def parseHostPort (authority : List Char) : Option Authority :=
  if authority = [] then none
  else
    match bracketMatch authority with
    | some (h, ds) => some ⟨h, (decNat ds : ℚ)⟩
    | none =>
      match splitOnChar ':' authority with
      | [h, pstr] =>
        (match jsNumber pstr with
         | none => none
         | some p =>
           if p ≤ 0 ∨ 65535 < p then none
           else if h = [] then none else some ⟨h, p⟩)
      | _ => some ⟨authority, 443⟩

/-! ## Authenticator (`isAuthorized`, app.ts:183-195) -/

/-- Standard base64 alphabet value of a character; `none` for everything
else (Node's forgiving decoder skips such characters, including padding). -/
def b64Val (c : Char) : Option Nat :=
  if 'A' ≤ c ∧ c ≤ 'Z' then some (c.toNat - 65)
  else if 'a' ≤ c ∧ c ≤ 'z' then some (c.toNat - 71)
  else if '0' ≤ c ∧ c ≤ '9' then some (c.toNat + 4)
  else if c = '+' then some 62
  else if c = '/' then some 63
  else none

/-- Pack base64 sextets into bytes (trailing 1 sextet is dropped, 2 give one
byte, 3 give two). -/
def packB64 : List Nat → List Nat
  | a :: b :: c :: d :: r => (a * 4 + b / 16) :: ((b % 16) * 16 + c / 4) :: ((c % 4) * 64 + d) :: packB64 r
  | [a, b] => [a * 4 + b / 16]
  | [a, b, c] => [a * 4 + b / 16, (b % 16) * 16 + c / 4]
  | _ => []

/-- Model of `Buffer.from(s, 'base64')`. -/
def b64decode (s : List Char) : List Nat :=
  packB64 (s.filterMap b64Val)

/-- Is a byte a UTF-8 continuation byte? -/
def isCont (b : Nat) : Bool := 128 ≤ b ∧ b ≤ 191

/-- Fuelled UTF-8 decoder (fuel ≥ list length suffices; each step consumes
at least one byte).  Ill-formed sequences yield U+FFFD, as in Node. -/
def utf8go : Nat → List Nat → List Char
  | 0, _ => []
  | _ + 1, [] => []
  | n + 1, b :: r =>
    if b ≤ 127 then Char.ofNat b :: utf8go n r
    else
      match r with
      | [] => [Char.ofNat 0xFFFD]
      | b2 :: r2 =>
        if b ≤ 0xdf then
          if 0xc2 ≤ b ∧ isCont b2
          then Char.ofNat ((b - 0xc0) * 64 + (b2 - 0x80)) :: utf8go n r2
          else Char.ofNat 0xFFFD :: utf8go n r
        else
          match r2 with
          | [] => Char.ofNat 0xFFFD :: utf8go n r
          | b3 :: r3 =>
            if b ≤ 0xef then
              if isCont b2 ∧ isCont b3
              then Char.ofNat ((b - 0xe0) * 4096 + (b2 - 0x80) * 64 + (b3 - 0x80)) :: utf8go n r3
              else Char.ofNat 0xFFFD :: utf8go n r
            else
              match r3 with
              | [] => Char.ofNat 0xFFFD :: utf8go n r
              | b4 :: r4 =>
                if b ≤ 0xf4 ∧ isCont b2 ∧ isCont b3 ∧ isCont b4
                then Char.ofNat ((b - 0xf0) * 262144 + (b2 - 0x80) * 4096 + (b3 - 0x80) * 64 + (b4 - 0x80)) :: utf8go n r4
                else Char.ofNat 0xFFFD :: utf8go n r

/-- Model of `buffer.toString('utf8')`. -/
def utf8decode (bs : List Nat) : List Char := utf8go bs.length bs

/-- Model of `Buffer.from(x, 'base64').toString('utf8')`. -/
def b64utf8 (s : List Char) : List Char := utf8decode (b64decode s)

/-- A Node header value: a single string or (for repeated headers) an array. -/
inductive HeaderVal where
  | str (v : List Char)
  | arr (vs : List (List Char))
deriving DecidableEq

/-- Incoming CONNECT request, as far as the handler inspects it. -/
structure Request where
  url : Option (List Char)
  proxyAuthorization : Option HeaderVal

/-- Configuration surface of the core (environment-derived constants). -/
structure Config where
  dohEnabled : Bool
  dnsCacheTtlMs : Nat
  blockPrivate : Bool
  maxConnsPerIp : Int
  authUser : Option (List Char)
  authPass : Option (List Char)

/-- Model of `AUTH_REQUIRED = !!(AUTH_USER && AUTH_PASS)`: both env vars present and
non-empty (the empty string is falsy in JS). -/
def authRequired (cfg : Config) : Bool :=
  match cfg.authUser, cfg.authPass with
  | some u, some p => u ≠ [] ∧ p ≠ []
  | _, _ => false

/-- Index of the first `:` in a list, if any (model of `indexOf(':')` with
its `< 0` failure case). -/
def firstColon (l : List Char) : Option Nat :=
  l.findIdx? (fun c => c = ':')

/-- Source `isAuthorized`: open mode when no credentials are configured;
otherwise require `Basic <base64(user:pass)>`, split the decoded text at the
first colon, and compare both parts exactly. -/
def isAuthorized (cfg : Config) (req : Request) : Bool :=
  if ¬authRequired cfg then true
  else
    match req.proxyAuthorization with
    | none => false
    | some (.arr _) => false
    | some (.str hdr) =>
      let v := trim hdr
      if ¬startsWithL (chars "basic ") (lower v) then false
      else
        let raw := b64utf8 (trim (v.drop 6))
        match firstColon raw with
        | none => false
        | some i =>
          let u := raw.take i
          let p := raw.drop (i + 1)
          cfg.authUser = some u && cfg.authPass = some p

/-! ## Process-wide mutable maps -/

/-- Model of a JS `Map` used at string keys: a function to `Option`. -/
def JsMap (α : Type) := List Char → Option α

/-- A `Map` with no entries. -/
def mapEmpty {α : Type} : JsMap α := fun _ => none

/-- Model of `map.set(k, v)`. -/
def mapSet {α : Type} (m : JsMap α) (k : List Char) (v : α) : JsMap α :=
  fun x => if x = k then some v else m x

/-- Model of `map.delete(k)`. -/
def mapDelete {α : Type} (m : JsMap α) (k : List Char) : JsMap α :=
  fun x => if x = k then none else m x

/-! ## Resolver (`resolveHost`, app.ts:108-121) -/

/-- One resolution cache entry: the address list plus its expiry time. -/
structure CacheEntry where
  ips : List (List Char)
  expires : Nat
deriving DecidableEq

/-- The `dohQuery` answer filter (app.ts:93-95): keep only `data` strings that
are syntactically valid addresses.  The raw answers stand for what the DoH
service returned; a failed or timed-out lookup is represented by the caller
passing `[]` (the `.catch(() => [])` in `resolveHost`). -/
def dohFilter (answers : List (List Char)) : List (List Char) :=
  answers.filter (fun d => isIP d ≠ 0)

/-- Valid-cache-hit test from app.ts:112: an entry exists, is unexpired
(strictly), and is non-empty. -/
def validCacheHit (cache : JsMap CacheEntry) (now : Nat) (host : List Char) : Bool :=
  match cache host with
  | some e => now < e.expires && e.ips ≠ []
  | none => false

/-- Result of one `resolveHost` call: the returned list, the cache after the
call, and whether fresh DoH lookups were issued. -/
structure ResolveResult where
  ips : List (List Char)
  cache : JsMap CacheEntry
  queried : Bool

/-- Source `resolveHost`: literals pass through; an unexpired non-empty
cache entry is returned; with resolution disabled an empty list signals
system-DNS passthrough; otherwise both record types are queried, the
combined list (possibly empty) is stored with expiry `now + TTL`, and
returned. -/
def resolveHost (cfg : Config) (cache : JsMap CacheEntry) (now : Nat)
    (host : List Char) (ansA ansAAAA : List (List Char)) : ResolveResult :=
  if isIP host ≠ 0 then ⟨[host], cache, false⟩
  else if validCacheHit cache now host then
    ⟨(match cache host with | some e => e.ips | none => []), cache, false⟩
  else if ¬cfg.dohEnabled then ⟨[], cache, false⟩
  else
    let ips := dohFilter ansA ++ dohFilter ansAAAA
    ⟨ips, mapSet cache host ⟨ips, now + cfg.dnsCacheTtlMs⟩, true⟩

/-- Source `pickIp` (app.ts:123-127): `null` on empty, else the first
IPv4-family entry, else the first entry. -/
def pickIp (ips : List (List Char)) : Option (List Char) :=
  if ips = [] then none
  else
    match ips.find? (fun i => isIP i = 4) with
    | some v4 => some v4
    | none => ips.head?

/-! ## Admission Controller (per-destination counters, app.ts:242-257) -/

/-- Source `release` (app.ts:253-257): read the count (0 when absent),
delete the entry at ≤ 1, else store count − 1. -/
def release (m : JsMap Int) (keyIp : List Char) : JsMap Int :=
  let c := (m keyIp).getD 0
  if c ≤ 1 then mapDelete m keyIp else mapSet m keyIp (c - 1)

/-- The admission increment (app.ts:243-251): compute `get + 1`; reject
without storing when it exceeds the ceiling, else store it. -/
def reserveStep (maxConns : Int) (m : JsMap Int) (k : List Char) : JsMap Int :=
  let current := (m k).getD 0 + 1
  if maxConns < current then m else mapSet m k current

/-- Both teardown handlers (app.ts:300-307) call `release`; each socket of
the pair emits `close` exactly once, and closing either side ends with both
closed, so an admitted session runs `release` twice on its key. -/
def sessionTeardown (m : JsMap Int) (k : List Char) : JsMap Int :=
  release (release m k) k

/-- Counter-table operations observable between scheduler suspension points:
an admission increment attempt for a key, or one `release` call. -/
inductive CounterOp where
  | reserve (k : List Char)
  | finish (k : List Char)

/-- Apply a sequence of counter operations to a table. -/
def applyOps (maxConns : Int) (ops : List CounterOp) (m : JsMap Int) : JsMap Int :=
  ops.foldl
    (fun m op =>
      match op with
      | .reserve k => reserveStep maxConns m k
      | .finish k => release m k)
    m

/-- The admission-table invariant: every stored count is at least 1 (so no
entry is ever negative or zero — zero counts are expressed by deleting the
entry) and no stored count exceeds the ceiling. -/
def CounterInv (maxConns : Int) (m : JsMap Int) : Prop :=
  ∀ k c, m k = some c → 1 ≤ c ∧ c ≤ maxConns

/-! ## Connect Handler (app.ts:198-308, up to the upstream connect call) -/

/-- The 407 response written on failed authorization (app.ts:202-207). -/
def resp407 : String :=
  "HTTP/1.1 407 Proxy Authentication Required\r\nProxy-Authenticate: Basic realm=\"Secure Web Proxy\"\r\nContent-Length: 0\r\n\r\n"

/-- The 400 response for an unparsable authority (app.ts:216). -/
def resp400 : String := "HTTP/1.1 400 Bad Request\r\n\r\n"

/-- The 403 response for a trust-blocked target (app.ts:235). -/
def resp403 : String := "HTTP/1.1 403 Forbidden\r\n\r\n"

/-- The 429 response for an admission-ceiling rejection (app.ts:246). -/
def resp429 : String := "HTTP/1.1 429 Too Many Requests\r\n\r\n"

/-- JS truthiness of a string: non-empty. -/
def jsTruthy (s : List Char) : Bool := s ≠ []

/-- JS truthiness of a string-or-null. -/
def jsTruthyOpt : Option (List Char) → Bool
  | some s => jsTruthy s
  | none => false

/-- The `targetIp` computation (app.ts:223-228): the picked resolved
address when the list is non-empty, else the host itself when it is an IP
literal, else null. -/
def resolvedTarget (host : List Char) (ips : List (List Char)) : Option (List Char) :=
  let t0 : Option (List Char) := if ips ≠ [] then pickIp ips else none
  if ¬jsTruthyOpt t0 ∧ isIP host ≠ 0 then some host else t0

/-- The admission key (app.ts:242): `targetIp || host`. -/
def admissionKey (host : List Char) (targetIp : Option (List Char)) : List Char :=
  match targetIp with
  | some ip => if ip = [] then host else ip
  | none => host

/-- The guard of the 403 branch (app.ts:233): `targetIp && isBlockedIp(targetIp)`. -/
def blockedGuard (blockPrivate : Bool) (targetIp : Option (List Char)) : Bool :=
  match targetIp with
  | some ip => jsTruthy ip && isBlockedIp blockPrivate ip
  | none => false

/-- Process-wide mutable state touched by the handler. -/
structure ProxyState where
  dnsCache : JsMap CacheEntry
  ipConnCount : JsMap Int

/-- The upstream `net.connect` call (app.ts:260-262): `host` is `none` when
the code passes the `null` `targetIp` through the non-null assertion. -/
structure UpstreamCall where
  host : Option (List Char)
  port : ℚ
deriving DecidableEq

/-- What one run of the CONNECT handler did, up to the point where control
passes to the asynchronous upstream-connection machinery. -/
structure ConnectOutcome where
  writes : List String
  destroyedClient : Bool
  state : ProxyState
  upstream : Option UpstreamCall

/-- Source CONNECT handler (app.ts:198-262): authorization, authority
parsing, resolution, trust check, admission, then the upstream connect
attempt.  `ansA`/`ansAAAA` are the answers the DoH service would deliver for
this host (empty on failure/timeout, matching `.catch(() => [])`). -/
def handleConnect (cfg : Config) (st : ProxyState) (now : Nat) (req : Request)
    (ansA ansAAAA : List (List Char)) : ConnectOutcome :=
  if ¬isAuthorized cfg req then ⟨[resp407], true, st, none⟩
  else
    match parseHostPort (req.url.getD []) with
    | none => ⟨[resp400], true, st, none⟩
    | some a =>
      let host := a.host
      let r := resolveHost cfg st.dnsCache now host ansA ansAAAA
      let st1 : ProxyState := ⟨r.cache, st.ipConnCount⟩
      let targetIp := resolvedTarget host r.ips
      let willUseSystemDns := ¬jsTruthyOpt targetIp ∧ ¬cfg.dohEnabled
      if blockedGuard cfg.blockPrivate targetIp then ⟨[resp403], true, st1, none⟩
      else
        let keyIp := admissionKey host targetIp
        let current := (st.ipConnCount keyIp).getD 0 + 1
        if cfg.maxConnsPerIp < current then ⟨[resp429], true, st1, none⟩
        else
          ⟨[], false, ⟨r.cache, mapSet st.ipConnCount keyIp current⟩,
            some ⟨if willUseSystemDns then some host else targetIp, a.port⟩⟩

/-! ## Spec-side range predicates (for claim C5)

These two predicates are written from the words of the specification, not
from the source: they say that a parsed address *value* lies in one of the
enumerated disallowed ranges.  They exist to be compared against the
source-derived classifier `isBlockedIp`. -/

/-- Spec wording: IPv4 ranges 10/8, 172.16/12, 192.168/16, 127/8,
169.254/16, 100.64/10, 0/8, 224/4 through 255/4, as conditions on the first
two octet values. -/
def specV4Blocked (a b : Nat) : Prop :=
  a = 10 ∨ (a = 172 ∧ 16 ≤ b ∧ b ≤ 31) ∨ (a = 192 ∧ b = 168) ∨ a = 127 ∨
  (a = 169 ∧ b = 254) ∨ (a = 100 ∧ 64 ≤ b ∧ b ≤ 127) ∨ a = 0 ∨ 224 ≤ a

/-- Spec wording: IPv6 fc00::/7, fe80::/10, ff00::/8 as conditions on the
leading 16-bit group value. -/
def specV6HeadBlocked (h : Nat) : Prop :=
  (0xfc00 ≤ h ∧ h ≤ 0xfdff) ∨ (0xfe80 ≤ h ∧ h ≤ 0xfebf) ∨ (0xff00 ≤ h ∧ h ≤ 0xffff)

/-- Spec wording, claim C5 as stated: a syntactically valid address whose
value lies in any enumerated range, including the unspecified and loopback
IPv6 addresses as address *values* (any textual spelling). -/
def specBlockedAddr (s : List Char) : Prop :=
  (∃ a b c d, parseIPv4 s = some (a, b, c, d) ∧ specV4Blocked a b) ∨
  (∃ gs, parseIPv6 s = some gs ∧
    (specV6HeadBlocked (gs.headD 0) ∨ gs = List.replicate 8 0 ∨
     gs = List.replicate 7 0 ++ [1]))

/-- Amended range predicate: as `specBlockedAddr`, but the unspecified and
loopback IPv6 addresses only in the exact spellings `::` and `::1` that the
classifier recognises (case-insensitively). -/
def specBlockedAddrAmended (s : List Char) : Prop :=
  (∃ a b c d, parseIPv4 s = some (a, b, c, d) ∧ specV4Blocked a b) ∨
  (∃ gs, parseIPv6 s = some gs ∧ specV6HeadBlocked (gs.headD 0)) ∨
  lower s = chars "::" ∨ lower s = chars "::1"

/-! # Theorems -/

/-- Claim C6: an input that fails syntactic address validation is blocked by
the Trust Classifier regardless of the trust-enforcement flag. -/
theorem invalid_address_blocked (s : List Char) (blockPrivate : Bool)
    (h : isIP s = 0) : isBlockedIp blockPrivate s = true := by
  unfold isBlockedIp
  simp [h]

/-- Witness for `invalid_address_blocked`: a concrete non-address input,
under both settings of the flag. -/
theorem invalid_address_blocked_w :
    isIP (chars "example.com") = 0 ∧
    isBlockedIp true (chars "example.com") = true ∧
    isBlockedIp false (chars "example.com") = true :=
  ⟨by decide, invalid_address_blocked _ true (by decide),
    invalid_address_blocked _ false (by decide)⟩

/-- Claim C1 (failing input): with two concurrently admitted sessions to the
same destination key (stored count 2), ending ONE session runs `release`
from both close handlers, erasing the whole entry; a single guarded release
would have left count 1.  The double blind decrement contradicts the
required exactly-once release per admitted session. -/
theorem counter_release_double_decrement :
    (sessionTeardown (mapSet mapEmpty (chars "198.51.100.7") 2) (chars "198.51.100.7"))
        (chars "198.51.100.7") = none ∧
    (release (mapSet mapEmpty (chars "198.51.100.7") 2) (chars "198.51.100.7"))
        (chars "198.51.100.7") = some 1 := by
  constructor <;> decide

/-- Claim C2 (counterexample): with resolution enabled and both lookups
empty, the combined empty list IS stored in the cache (entry with `ips = []`
and expiry `now + TTL`), contradicting "that empty list is not stored". -/
theorem resolveHost_caches_empty_list :
    (resolveHost ⟨true, 60000, true, 50, none, none⟩ mapEmpty 0
        (chars "example.com") [] []).cache (chars "example.com") =
      some ⟨[], 60000⟩ := by
  decide

/-- Claim C2 (amended): for a non-literal hostname with no valid cache hit
and resolution enabled, the combined (possibly empty) filtered result is
stored under the hostname with expiry `now + TTL`, and is also returned. -/
theorem resolveHost_caches_combined (cfg : Config) (cache : JsMap CacheEntry)
    (now : Nat) (host : List Char) (ansA ansAAAA : List (List Char))
    (h1 : isIP host = 0) (h2 : validCacheHit cache now host = false)
    (h3 : cfg.dohEnabled = true) :
    (resolveHost cfg cache now host ansA ansAAAA).cache host =
      some ⟨dohFilter ansA ++ dohFilter ansAAAA, now + cfg.dnsCacheTtlMs⟩ ∧
    (resolveHost cfg cache now host ansA ansAAAA).ips =
      dohFilter ansA ++ dohFilter ansAAAA := by
  unfold resolveHost
  simp [h1, h2, h3, mapSet]

/-- Witness for `resolveHost_caches_combined` at a concrete empty lookup. -/
theorem resolveHost_caches_combined_w :
    (resolveHost ⟨true, 60000, true, 50, none, none⟩ mapEmpty 0
        (chars "example.com") [] []).ips = [] :=
  (resolveHost_caches_combined ⟨true, 60000, true, 50, none, none⟩ mapEmpty 0
    (chars "example.com") [] [] (by decide) (by decide) rfl).2

/-- Claim C10: a stored cache entry whose address list is empty is treated
as a miss even when unexpired — the resolver issues fresh lookups when
resolution is enabled, or returns the passthrough signal when disabled,
never the stored empty list with a hit. -/
theorem empty_cache_entry_miss (cfg : Config) (cache : JsMap CacheEntry)
    (now : Nat) (host : List Char) (ansA ansAAAA : List (List Char))
    (e : CacheEntry) (hn : isIP host = 0) (hc : cache host = some e)
    (he : e.ips = []) :
    (cfg.dohEnabled = true →
      (resolveHost cfg cache now host ansA ansAAAA).queried = true ∧
      (resolveHost cfg cache now host ansA ansAAAA).ips =
        dohFilter ansA ++ dohFilter ansAAAA) ∧
    (cfg.dohEnabled = false →
      (resolveHost cfg cache now host ansA ansAAAA).queried = false ∧
      (resolveHost cfg cache now host ansA ansAAAA).ips = []) := by
  have hmiss : validCacheHit cache now host = false := by
    unfold validCacheHit
    rw [hc]
    simp [he]
  unfold resolveHost
  rcases hd : cfg.dohEnabled <;> simp [hn, hmiss, hd]

/-- Witness for `empty_cache_entry_miss`: an unexpired empty entry
(`now = 5 < expires = 99999`) still triggers a fresh query. -/
theorem empty_cache_entry_miss_w :
    (resolveHost ⟨true, 60000, true, 50, none, none⟩
        (mapSet mapEmpty (chars "h") ⟨[], 99999⟩) 5 (chars "h")
        [chars "1.2.3.4"] []).queried = true :=
  ((empty_cache_entry_miss ⟨true, 60000, true, 50, none, none⟩
    (mapSet mapEmpty (chars "h") ⟨[], 99999⟩) 5 (chars "h")
    [chars "1.2.3.4"] [] ⟨[], 99999⟩ (by decide) (by decide) rfl).1 rfl).1

/-- Claim C9: when authorization fails, the handler writes exactly the one
407 response (which carries the Proxy-Authenticate challenge), destroys the
client socket, leaves the whole shared state untouched, and attempts no
upstream connection. -/
theorem unauthorized_407_no_side_effects (cfg : Config) (st : ProxyState)
    (now : Nat) (req : Request) (ansA ansAAAA : List (List Char))
    (h : isAuthorized cfg req = false) :
    handleConnect cfg st now req ansA ansAAAA =
      ⟨[resp407], true, st, none⟩ ∧
    (chars "Proxy-Authenticate: Basic realm=") <:+: resp407.data := by
  refine ⟨?_, by decide⟩
  unfold handleConnect
  simp [h]

/-- Witness for `unauthorized_407_no_side_effects`: credentials configured,
header absent. -/
theorem unauthorized_407_no_side_effects_w :
    handleConnect ⟨true, 60000, true, 50, some (chars "myuser"), some (chars "mypassword")⟩
        ⟨mapEmpty, mapEmpty⟩ 0 ⟨some (chars "example.com:443"), none⟩ [] [] =
      ⟨[resp407], true, ⟨mapEmpty, mapEmpty⟩, none⟩ :=
  (unauthorized_407_no_side_effects _ _ 0 _ [] [] (by decide)).1

/-- Claim C3 (counterexample): authorized CONNECT to `example.com:443`,
resolution enabled, both lookups empty, empty cache — the handler surfaces
no error, but the upstream connect is attempted with a null host (the
`targetIp!` assertion on `null`), NOT with the hostname string
`example.com`. -/
theorem connect_empty_resolution_not_hostname :
    (handleConnect ⟨true, 60000, true, 50, none, none⟩ ⟨mapEmpty, mapEmpty⟩ 0
        ⟨some (chars "example.com:443"), none⟩ [] []).writes = [] ∧
    (handleConnect ⟨true, 60000, true, 50, none, none⟩ ⟨mapEmpty, mapEmpty⟩ 0
        ⟨some (chars "example.com:443"), none⟩ [] []).upstream =
      some ⟨none, 443⟩ ∧
    (some (chars "example.com") : Option (List Char)) ≠ none := by
  refine ⟨rfl, by decide, by decide⟩

/-- Claim C3 (amended): when an authorized request names a non-literal
hostname, resolution is enabled, both lookups come back empty and there is
no valid cache entry, the handler does not surface a resolution error (no
response is written at this stage) and proceeds through admission to the
upstream connect — but that connect is attempted with a null (`none`) host
value, not the original hostname string. -/
theorem connect_null_target_on_empty_resolution (cfg : Config)
    (st : ProxyState) (now : Nat) (req : Request)
    (ansA ansAAAA : List (List Char)) (a : Authority)
    (hAuth : isAuthorized cfg req = true)
    (hParse : parseHostPort (req.url.getD []) = some a)
    (hLit : isIP a.host = 0)
    (hDoh : cfg.dohEnabled = true)
    (hMiss : validCacheHit st.dnsCache now a.host = false)
    (hA : dohFilter ansA = []) (hQ : dohFilter ansAAAA = [])
    (hCap : (st.ipConnCount a.host).getD 0 + 1 ≤ cfg.maxConnsPerIp) :
    (handleConnect cfg st now req ansA ansAAAA).writes = [] ∧
    (handleConnect cfg st now req ansA ansAAAA).upstream = some ⟨none, a.port⟩ := by
  have hres : resolveHost cfg st.dnsCache now a.host ansA ansAAAA =
      ⟨[], mapSet st.dnsCache a.host ⟨[], now + cfg.dnsCacheTtlMs⟩, true⟩ := by
    unfold resolveHost
    simp [hLit, hMiss, hDoh, hA, hQ]
  have htgt : resolvedTarget a.host ([] : List (List Char)) = none := by
    unfold resolvedTarget
    simp [hLit, jsTruthyOpt]
  unfold handleConnect
  rw [hParse]
  simp only [hAuth, Bool.not_true, Bool.false_eq_true, if_false, hres, htgt]
  have hkey : admissionKey a.host (none : Option (List Char)) = a.host := rfl
  have hguard : blockedGuard cfg.blockPrivate (none : Option (List Char)) = false := rfl
  simp only [hkey, hguard, Bool.false_eq_true, if_false]
  have hno : ¬cfg.maxConnsPerIp < (st.ipConnCount a.host).getD 0 + 1 :=
    not_lt.mpr hCap
  simp only [hno, if_false, jsTruthyOpt, hDoh]
  simp

/-- Witness for `connect_null_target_on_empty_resolution` at the concrete
scenario of the counterexample. -/
theorem connect_null_target_on_empty_resolution_w :
    (handleConnect ⟨true, 60000, true, 50, none, none⟩ ⟨mapEmpty, mapEmpty⟩ 0
        ⟨some (chars "example.com:443"), none⟩ [] []).upstream =
      some ⟨none, 443⟩ :=
  (connect_null_target_on_empty_resolution ⟨true, 60000, true, 50, none, none⟩
    ⟨mapEmpty, mapEmpty⟩ 0 ⟨some (chars "example.com:443"), none⟩ [] []
    ⟨chars "example.com", 443⟩ (by decide) (by decide) (by decide) rfl
    (by decide) rfl rfl (by decide)).2

/-- Claim C8: an admission attempt whose post-increment count would exceed
the ceiling is answered 429, the client is destroyed, no upstream connect is
attempted, and the counter table is exactly what it was before the attempt. -/
theorem admission_reject_preserves_counts (cfg : Config) (st : ProxyState)
    (now : Nat) (req : Request) (ansA ansAAAA : List (List Char)) (a : Authority)
    (hAuth : isAuthorized cfg req = true)
    (hParse : parseHostPort (req.url.getD []) = some a)
    (hGuard : blockedGuard cfg.blockPrivate
      (resolvedTarget a.host (resolveHost cfg st.dnsCache now a.host ansA ansAAAA).ips) = false)
    (hOver : cfg.maxConnsPerIp <
      (st.ipConnCount (admissionKey a.host
        (resolvedTarget a.host (resolveHost cfg st.dnsCache now a.host ansA ansAAAA).ips))).getD 0 + 1) :
    (handleConnect cfg st now req ansA ansAAAA).writes = [resp429] ∧
    (handleConnect cfg st now req ansA ansAAAA).state.ipConnCount = st.ipConnCount ∧
    (handleConnect cfg st now req ansA ansAAAA).upstream = none ∧
    (handleConnect cfg st now req ansA ansAAAA).destroyedClient = true := by
  unfold handleConnect
  rw [hParse]
  simp only [hAuth, Bool.not_true, Bool.false_eq_true, if_false, hGuard, hOver, if_true]
  exact ⟨rfl, rfl, rfl, rfl⟩

/-- Witness for `admission_reject_preserves_counts`: ceiling 0, so the
first attempt (post-increment count 1) is rejected with the table empty
before and after. -/
theorem admission_reject_preserves_counts_w :
    (handleConnect ⟨false, 60000, true, 0, none, none⟩ ⟨mapEmpty, mapEmpty⟩ 0
        ⟨some (chars "example.com:443"), none⟩ [] []).writes = [resp429] ∧
    (handleConnect ⟨false, 60000, true, 0, none, none⟩ ⟨mapEmpty, mapEmpty⟩ 0
        ⟨some (chars "example.com:443"), none⟩ [] []).state.ipConnCount = mapEmpty :=
  ⟨(admission_reject_preserves_counts ⟨false, 60000, true, 0, none, none⟩
      ⟨mapEmpty, mapEmpty⟩ 0 ⟨some (chars "example.com:443"), none⟩ [] []
      ⟨chars "example.com", 443⟩ (by decide) (by decide) (by decide) (by decide)).1,
   (admission_reject_preserves_counts ⟨false, 60000, true, 0, none, none⟩
      ⟨mapEmpty, mapEmpty⟩ 0 ⟨some (chars "example.com:443"), none⟩ [] []
      ⟨chars "example.com", 443⟩ (by decide) (by decide) (by decide) (by decide)).2.1⟩

/-- The admission increment preserves the counter-table invariant. -/
theorem reserveStep_inv (maxConns : Int) (m : JsMap Int) (k : List Char)
    (h : CounterInv maxConns m) : CounterInv maxConns (reserveStep maxConns m k) := by
  unfold reserveStep
  dsimp only
  split
  · exact h
  · rename_i hle
    intro k' c' hk'
    simp only [mapSet] at hk'
    split at hk'
    · cases hk'
      cases hmk : m k with
      | none => simp [hmk] at hle ⊢; omega
      | some c0 =>
        have := h k c0 hmk
        simp [hmk] at hle ⊢
        omega
    · exact h k' c' hk'

/-- The `release` operation preserves the counter-table invariant. -/
theorem release_inv (maxConns : Int) (m : JsMap Int) (k : List Char)
    (h : CounterInv maxConns m) : CounterInv maxConns (release m k) := by
  unfold release
  dsimp only
  split
  · intro k' c' hk'
    simp only [mapDelete] at hk'
    split at hk'
    · cases hk'
    · exact h k' c' hk'
  · rename_i hgt
    intro k' c' hk'
    simp only [mapSet] at hk'
    split at hk'
    · cases hk'
      cases hmk : m k with
      | none => simp [hmk] at hgt
      | some c0 =>
        have := h k c0 hmk
        simp [hmk] at hgt ⊢
        omega
    · exact h k' c' hk'

/-- Claim C7: from the empty table, any interleaving of admission
increments and releases keeps every stored per-destination count between 1
and the ceiling — no entry is ever negative or zero (a count that returns
to zero is expressed by removing the entry), and both operations preserve
this invariant. -/
theorem counter_table_invariant (maxConns : Int) (ops : List CounterOp) :
    CounterInv maxConns (applyOps maxConns ops mapEmpty) := by
  suffices hgen : ∀ m, CounterInv maxConns m →
      CounterInv maxConns (applyOps maxConns ops m) by
    exact hgen mapEmpty (fun k c hk => by cases hk)
  induction ops with
  | nil => exact fun m hm => hm
  | cons op rest ih =>
    intro m hm
    cases op with
    | reserve k => exact ih _ (reserveStep_inv maxConns m k hm)
    | finish k => exact ih _ (release_inv maxConns m k hm)

/-- Witness for `counter_table_invariant` on a concrete operation trace
(two admissions, an over-ceiling rejection, and a release). -/
theorem counter_table_invariant_w :
    CounterInv 2 (applyOps 2
      [CounterOp.reserve (chars "a"), CounterOp.reserve (chars "a"),
       CounterOp.reserve (chars "a"), CounterOp.finish (chars "a")] mapEmpty) :=
  counter_table_invariant 2 _

/-- Inversion of the bracket-regex model: a match means a non-empty host
part and a non-empty all-digit port part. -/
theorem bracketMatch_inv (s hh ds : List Char)
    (h : bracketMatch s = some (hh, ds)) :
    hh ≠ [] ∧ ds ≠ [] ∧ ds.all (fun c => (digitVal c).isSome) = true := by
  unfold bracketMatch at h
  split at h
  · dsimp only at h
    split at h
    · split at h
      · rename_i hcond
        injection h with h'
        injection h' with h1 h2
        subst h1
        subst h2
        exact ⟨hcond.1, hcond.2.1, hcond.2.2⟩
      · cases h
    · cases h
  · cases h

/-- Claim C4 (counterexample): the bracketed form accepts an out-of-range
port — `[::1]:99999` parses to port 99999 > 65535 (port 0 is likewise
accepted), because the bracket branch applies no range check. -/
theorem parseHostPort_bracket_port_unchecked :
    parseHostPort (chars "[::1]:99999") = some ⟨chars "::1", 99999⟩ ∧
    ¬((99999 : ℚ) ≤ 65535) := by
  constructor <;> decide

/-- Claim C4 (amended): every accepted authority has a non-empty host, and
on the non-bracket forms (`host:port` and bare host) the port is checked:
positive and at most 65535.  The bracketed form accepts any digit string as
port with no range check. -/
theorem parseHostPort_host_nonempty_port_checked (s : List Char) (r : Authority)
    (h : parseHostPort s = some r) :
    r.host ≠ [] ∧ (bracketMatch s = none → 0 < r.port ∧ r.port ≤ 65535) := by
  unfold parseHostPort at h
  split at h
  · cases h
  · rename_i hne
    cases hb : bracketMatch s with
    | some p =>
      obtain ⟨hh, ds⟩ := p
      rw [hb] at h
      dsimp only at h
      injection h with h'
      constructor
      · rw [← h']
        exact (bracketMatch_inv s hh ds hb).1
      · intro hc
        simp at hc
    | none =>
      rw [hb] at h
      dsimp only at h
      split at h
      · rename_i hsp
        split at h
        · cases h
        · rename_i p hp
          split at h
          · cases h
          · rename_i hrange
            split at h
            · cases h
            · rename_i hhost
              injection h with h'
              push_neg at hrange
              refine ⟨?_, fun _ => ⟨?_, ?_⟩⟩ <;> rw [← h']
              · exact hhost
              · exact hrange.1
              · exact hrange.2
      · injection h with h'
        constructor
        · rw [← h']
          exact hne
        · intro _
          rw [← h']
          norm_num

/-- Witness for `parseHostPort_host_nonempty_port_checked` at
`example.com:443`. -/
theorem parseHostPort_host_nonempty_port_checked_w :
    (Authority.mk (chars "example.com") 443).host ≠ [] ∧
    (bracketMatch (chars "example.com:443") = none →
      0 < (Authority.mk (chars "example.com") 443).port ∧
      (Authority.mk (chars "example.com") 443).port ≤ 65535) :=
  parseHostPort_host_nonempty_port_checked (chars "example.com:443")
    ⟨chars "example.com", 443⟩ (by decide)

/-! ## Structural lemmas about `splitOnChar` -/

/-- The function `splitOnChar` never returns the empty list. -/
theorem splitOnChar_ne_nil (sep : Char) (l : List Char) :
    splitOnChar sep l ≠ [] := by
  induction l with
  | nil => simp [splitOnChar]
  | cons c r ih =>
    unfold splitOnChar
    dsimp only
    split
    · simp
    · split
      · simp
      · simp

/-- Re-joining the parts of `splitOnChar` with the separator recovers the
input. -/
theorem unsplit_splitOnChar (sep : Char) (l : List Char) :
    unsplit sep (splitOnChar sep l) = l := by
  induction l with
  | nil => rfl
  | cons c r ih =>
    unfold splitOnChar
    dsimp only
    split
    · rename_i hc
      cases hr : splitOnChar sep r with
      | nil => exact absurd hr (splitOnChar_ne_nil sep r)
      | cons p ps =>
        rw [hr] at ih
        rw [show unsplit sep ([] :: p :: ps) = [] ++ sep :: unsplit sep (p :: ps) from rfl]
        rw [ih]
        simp [hc]
    · rename_i hc
      cases hr : splitOnChar sep r with
      | nil => exact absurd hr (splitOnChar_ne_nil sep r)
      | cons p ps =>
        rw [hr] at ih
        show unsplit sep ((c :: p) :: ps) = c :: r
        cases ps with
        | nil =>
          show unsplit sep [c :: p] = c :: r
          have hp : unsplit sep [p] = r := ih
          show c :: p = c :: r
          rw [show unsplit sep [p] = p from rfl] at hp
          rw [hp]
        | cons q qs =>
          show unsplit sep ((c :: p) :: q :: qs) = c :: r
          rw [show unsplit sep ((c :: p) :: q :: qs) =
              (c :: p) ++ sep :: unsplit sep (q :: qs) from rfl]
          rw [show unsplit sep (p :: q :: qs) =
              p ++ sep :: unsplit sep (q :: qs) from rfl] at ih
          rw [← ih]
          simp

/-- The first part produced by `splitOnChar` is a prefix of the input. -/
theorem splitOnChar_head_prefix (sep : Char) (l a : List Char)
    (r : List (List Char)) (h : splitOnChar sep l = a :: r) :
    ∃ t, l = a ++ t := by
  have hj := unsplit_splitOnChar sep l
  rw [h] at hj
  cases r with
  | nil =>
    refine ⟨[], ?_⟩
    unfold unsplit at hj
    simp [← hj]
  | cons p ps =>
    refine ⟨sep :: unsplit sep (p :: ps), ?_⟩
    unfold unsplit at hj
    rw [← hj]

/-- Every character of `unsplit sep ps` is in one of the parts or is the
separator. -/
theorem mem_unsplit (sep : Char) (ps : List (List Char)) (x : Char)
    (h : x ∈ unsplit sep ps) : (∃ p ∈ ps, x ∈ p) ∨ x = sep := by
  induction ps with
  | nil => cases h
  | cons p qs ih =>
    cases qs with
    | nil =>
      left
      exact ⟨p, by simp, h⟩
    | cons q rs =>
      rw [show unsplit sep (p :: q :: rs) = p ++ sep :: unsplit sep (q :: rs) from rfl] at h
      rcases List.mem_append.mp h with hp | hs
      · exact Or.inl ⟨p, by simp, hp⟩
      · rcases List.mem_cons.mp hs with he | hm
        · exact Or.inr he
        · rcases ih hm with ⟨p', hp', hx⟩ | he
          · exact Or.inl ⟨p', by simp [hp'], hx⟩
          · exact Or.inr he

/-- If a split has at least two parts, the separator occurs in the input. -/
theorem sep_mem_of_split_cons₂ (sep : Char) (l a p : List Char)
    (ps : List (List Char)) (h : splitOnChar sep l = a :: p :: ps) :
    sep ∈ l := by
  have hj := unsplit_splitOnChar sep l
  rw [h] at hj
  rw [show unsplit sep (a :: p :: ps) = a ++ sep :: unsplit sep (p :: ps) from rfl] at hj
  rw [← hj]
  simp

/-- A character with a hex value is at most 15. -/
theorem hexVal_le (ch : Char) (v : Nat) (h : hexVal ch = some v) : v ≤ 15 := by
  unfold hexVal at h
  split at h <;> simp_all <;> omega

/-- Inversion of `hexVal` at the specific digit values the range proofs
need. -/
theorem hexVal_char_of_val (ch : Char) (v : Nat) (h : hexVal ch = some v) :
    (v = 15 → ch = 'f') ∧ (v = 14 → ch = 'e') ∧ (v = 13 → ch = 'd') ∧
    (v = 12 → ch = 'c') ∧ (v = 11 → ch = 'b') ∧ (v = 10 → ch = 'a') ∧
    (v = 9 → ch = '9') ∧ (v = 8 → ch = '8') := by
  unfold hexVal at h
  split at h <;> simp_all <;> omega

/-- A decimal digit is not a separator-relevant character: not whitespace,
not a sign, not a radix letter, not `.`, `:`, `[`, `]` or `I`. -/
theorem digit_props (ch : Char) (h : (digitVal ch).isSome = true) :
    isWsChar ch = false ∧ ch ≠ '+' ∧ ch ≠ '-' ∧ ch ≠ '.' ∧ ch ≠ ':' ∧
    ch ≠ 'I' ∧ ch ≠ 'x' ∧ ch ≠ 'X' ∧ ch ≠ 'o' ∧ ch ≠ 'O' ∧ ch ≠ 'b' ∧
    ch ≠ 'B' := by
  unfold digitVal at h
  split at h <;> simp_all [isWsChar]

/-- Behaviour of `takeWhile`/`dropWhile` on a list all of whose elements satisfy the
predicate. -/
theorem takeWhile_all (p : Char → Bool) (l : List Char)
    (h : ∀ x ∈ l, p x = true) :
    l.takeWhile p = l ∧ l.dropWhile p = [] := by
  induction l with
  | nil => simp
  | cons c r ih =>
    have hc := h c (by simp)
    have hr := ih (fun x hx => h x (by simp [hx]))
    simp [List.takeWhile_cons, List.dropWhile_cons, hc, hr.1, hr.2]

/-- The function `dropWhile` is the identity when no element satisfies the predicate. -/
theorem dropWhile_none (p : Char → Bool) (l : List Char)
    (h : ∀ x ∈ l, p x = false) : l.dropWhile p = l := by
  cases l with
  | nil => rfl
  | cons c r => simp [List.dropWhile_cons, h c (by simp)]

/-- The function `trim` is the identity on strings with no whitespace characters. -/
theorem trim_id (l : List Char) (h : ∀ x ∈ l, isWsChar x = false) :
    trim l = l := by
  unfold trim
  rw [dropWhile_none _ _ h]
  rw [dropWhile_none _ _ (fun x hx => h x (List.mem_reverse.mp hx))]
  exact List.reverse_reverse l

/-- Inversion of `parseOctet`. -/
theorem parseOctet_inv (t : List Char) (o : Nat) (h : parseOctet t = some o) :
    t ≠ [] ∧ t.length ≤ 3 ∧ (∀ ch ∈ t, (digitVal ch).isSome = true) ∧
    o = decNat t := by
  unfold parseOctet at h
  split at h
  · rename_i hc
    injection h with h'
    refine ⟨hc.1, hc.2.1, ?_, h'.symm⟩
    intro ch hch
    have := hc.2.2.1
    rw [List.all_eq_true] at this
    exact this ch hch
  · cases h

/-- The function `parseRadix` rejects all-digit strings (a digit is never one of the
radix letters). -/
theorem parseRadix_digits (t : List Char)
    (hd : ∀ ch ∈ t, (digitVal ch).isSome = true) : parseRadix t = none := by
  unfold parseRadix
  split
  · rename_i x r
    obtain ⟨-, -, -, -, -, -, hx1, hx2, hx3, hx4, hx5, hx6⟩ :=
      digit_props x (hd x (by simp))
    simp [hx1, hx2, hx3, hx4, hx5, hx6]
  · rfl

/-- The function `parseDec` evaluates an all-digit string to its decimal value. -/
theorem parseDec_digits (t : List Char) (hne : t ≠ [])
    (hd : ∀ ch ∈ t, (digitVal ch).isSome = true) :
    parseDec t = some ((decNat t : ℚ)) := by
  unfold parseDec
  have hta := takeWhile_all (fun c => (digitVal c).isSome) t hd
  rw [hta.1, hta.2]
  simp [hne]

/-- The function `jsNumPos` evaluates an all-digit string to its decimal value. -/
theorem jsNumPos_digits (t : List Char) (hne : t ≠ [])
    (hd : ∀ ch ∈ t, (digitVal ch).isSome = true) :
    jsNumPos t = some ((decNat t : ℚ)) := by
  unfold jsNumPos
  have hInf : t ≠ chars "Infinity" := by
    intro he
    have := hd 'I' (by rw [he]; decide)
    simp [digitVal] at this
  rw [if_neg hInf, parseRadix_digits t hd]
  exact parseDec_digits t hne hd

/-- Applying `Number` to a non-empty all-digit string yields its decimal value. -/
theorem jsNumber_digits (t : List Char) (hne : t ≠ [])
    (hd : ∀ ch ∈ t, (digitVal ch).isSome = true) :
    jsNumber t = some ((decNat t : ℚ)) := by
  have hws : ∀ x ∈ t, isWsChar x = false := fun x hx => (digit_props x (hd x hx)).1
  unfold jsNumber
  dsimp only
  rw [trim_id t hws, if_neg hne]
  split
  · rename_i r
    have := (digit_props '+' (hd '+' (by simp))).2.1
    simp at this
  · rename_i r
    have := (digit_props '-' (hd '-' (by simp))).2.2.1
    simp at this
  · exact jsNumPos_digits t hne hd

/-- Inversion of `parseIPv4`: the four dot-separated parts and their octet
values. -/
theorem parseIPv4_inv (s : List Char) (a b c d : Nat)
    (h : parseIPv4 s = some (a, b, c, d)) :
    ∃ t1 t2 t3 t4, splitOnChar '.' s = [t1, t2, t3, t4] ∧
      parseOctet t1 = some a ∧ parseOctet t2 = some b ∧
      parseOctet t3 = some c ∧ parseOctet t4 = some d := by
  unfold parseIPv4 at h
  split at h
  · rename_i t1 t2 t3 t4 heq
    split at h
    · rename_i a' b' c' d' h1 h2 h3 h4
      injection h with h'
      obtain ⟨ha, hb, hc, hd⟩ : a' = a ∧ b' = b ∧ c' = c ∧ d' = d := by
        simpa using h'
      subst ha; subst hb; subst hc; subst hd
      exact ⟨t1, t2, t3, t4, heq, h1, h2, h3, h4⟩
    · cases h
  · cases h

/-- The Trust Classifier's IPv4 branch blocks every enumerated range: a
valid dotted quad whose first octets satisfy the spec ranges tests private. -/
theorem v4_private_of_spec (s : List Char) (a b c d : Nat)
    (h4 : parseIPv4 s = some (a, b, c, d)) (hb : specV4Blocked a b) :
    isPrivateIPv4 s = true := by
  obtain ⟨t1, t2, t3, t4, hsp, h1, h2, h3, h4'⟩ := parseIPv4_inv s a b c d h4
  obtain ⟨hne1, _, hdig1, hval1⟩ := parseOctet_inv t1 a h1
  obtain ⟨hne2, _, hdig2, hval2⟩ := parseOctet_inv t2 b h2
  have j1 : jsNumber t1 = some ((a : ℚ)) := by
    rw [jsNumber_digits t1 hne1 hdig1, hval1]
  have j2 : jsNumber t2 = some ((b : ℚ)) := by
    rw [jsNumber_digits t2 hne2 hdig2, hval2]
  unfold isPrivateIPv4
  rw [hsp]
  dsimp only [List.map_cons, List.map_nil, List.getD_cons_zero,
    List.getD_cons_succ]
  rw [j1, j2]
  simp only [jsEq, jsGe, jsLe]
  rcases hb with ha | ⟨ha, hb1, hb2⟩ | ⟨ha, hbe⟩ | ha | ⟨ha, hbe⟩ |
    ⟨ha, hb1, hb2⟩ | ha | ha
  · have e : (a : ℚ) = 10 := by exact_mod_cast ha
    simp [e]
  · have e1 : (a : ℚ) = 172 := by exact_mod_cast ha
    have e2 : (16 : ℚ) ≤ (b : ℚ) := by exact_mod_cast hb1
    have e3 : (b : ℚ) ≤ 31 := by exact_mod_cast hb2
    simp [e1, e2, e3]
  · have e1 : (a : ℚ) = 192 := by exact_mod_cast ha
    have e2 : (b : ℚ) = 168 := by exact_mod_cast hbe
    simp [e1, e2]
  · have e : (a : ℚ) = 127 := by exact_mod_cast ha
    simp [e]
  · have e1 : (a : ℚ) = 169 := by exact_mod_cast ha
    have e2 : (b : ℚ) = 254 := by exact_mod_cast hbe
    simp [e1, e2]
  · have e1 : (a : ℚ) = 100 := by exact_mod_cast ha
    have e2 : (64 : ℚ) ≤ (b : ℚ) := by exact_mod_cast hb1
    have e3 : (b : ℚ) ≤ 127 := by exact_mod_cast hb2
    simp [e1, e2, e3]
  · have e : (a : ℚ) = 0 := by exact_mod_cast ha
    simp [e]
  · rcases Nat.lt_or_ge a 240 with hlt | hge
    · have e1 : (224 : ℚ) ≤ (a : ℚ) := by exact_mod_cast ha
      have e2 : (a : ℚ) ≤ 239 := by exact_mod_cast Nat.le_of_lt_succ hlt
      simp [e1, e2]
    · have e : (240 : ℚ) ≤ (a : ℚ) := by exact_mod_cast hge
      simp [e]

/-- Inversion of `parseHexChunk`. -/
theorem parseHexChunk_inv (t : List Char) (g : Nat)
    (h : parseHexChunk t = some g) :
    t ≠ [] ∧ t.length ≤ 4 ∧ (∀ ch ∈ t, (hexVal ch).isSome = true) ∧
    g = hexNat t := by
  unfold parseHexChunk at h
  split at h
  · rename_i hc
    injection h with h'
    refine ⟨hc.1, hc.2.1, ?_, h'.symm⟩
    intro ch hch
    have := hc.2.2
    rw [List.all_eq_true] at this
    exact this ch hch
  · cases h

/-- A present hex digit value, defaulted, is at most 15. -/
theorem hexVal_getD_le (ch : Char) (h : (hexVal ch).isSome = true) :
    (hexVal ch).getD 0 ≤ 15 := by
  rcases Option.isSome_iff_exists.mp h with ⟨v, hv⟩
  rw [hv]
  simpa using hexVal_le ch v hv

/-- Hex strings of at most three digits stay below 0x1000. -/
theorem hexNat_lt_4096 (t : List Char) (hlen : t.length ≤ 3)
    (hhex : ∀ ch ∈ t, (hexVal ch).isSome = true) : hexNat t < 4096 := by
  rcases t with _ | ⟨c0, _ | ⟨c1, _ | ⟨c2, t'⟩⟩⟩
  · simp [hexNat]
  · have := hexVal_getD_le c0 (hhex c0 (by simp))
    simp [hexNat]
    omega
  · have h0 := hexVal_getD_le c0 (hhex c0 (by simp))
    have h1 := hexVal_getD_le c1 (hhex c1 (by simp))
    simp [hexNat]
    omega
  · cases t' with
    | nil =>
      have h0 := hexVal_getD_le c0 (hhex c0 (by simp))
      have h1 := hexVal_getD_le c1 (hhex c1 (by simp))
      have h2 := hexVal_getD_le c2 (hhex c2 (by simp))
      simp [hexNat]
      omega
    | cons c3 t'' => simp at hlen

/-- Positional decomposition of a four-digit hex string. -/
theorem hexNat_four (c0 c1 c2 c3 : Char) :
    hexNat [c0, c1, c2, c3] =
      (hexVal c0).getD 0 * 4096 + (hexVal c1).getD 0 * 256 +
      (hexVal c2).getD 0 * 16 + (hexVal c3).getD 0 := by
  simp [hexNat]
  ring

/-- A hex chunk with value ≥ 0xfc00 pins down its leading characters:
`fc`/`fd` on fc00::/7, `fe8`/`fe9`/`fea`/`feb` on fe80::/10, `ff` on
ff00::/8. -/
theorem hexChunk_range_chars (t : List Char) (g : Nat)
    (hp : parseHexChunk t = some g) (hge : 0xfc00 ≤ g) :
    ∃ c0 c1 rest, t = c0 :: c1 :: rest ∧
      (g ≤ 0xfdff → c0 = 'f' ∧ (c1 = 'c' ∨ c1 = 'd')) ∧
      (0xfe80 ≤ g ∧ g ≤ 0xfebf → c0 = 'f' ∧ c1 = 'e' ∧
        ∃ c2 rest2, rest = c2 :: rest2 ∧
          (c2 = '8' ∨ c2 = '9' ∨ c2 = 'a' ∨ c2 = 'b')) ∧
      (0xff00 ≤ g → c0 = 'f' ∧ c1 = 'f') := by
  obtain ⟨hne, hlen, hhex, hval⟩ := parseHexChunk_inv t g hp
  rcases t with _ | ⟨c0, _ | ⟨c1, _ | ⟨c2, _ | ⟨c3, t'⟩⟩⟩⟩
  · exact absurd rfl hne
  · exact absurd (hval ▸ hge) (by
      have := hexNat_lt_4096 [c0] (by simp) hhex
      omega)
  · exact absurd (hval ▸ hge) (by
      have := hexNat_lt_4096 [c0, c1] (by simp) hhex
      omega)
  · exact absurd (hval ▸ hge) (by
      have := hexNat_lt_4096 [c0, c1, c2] (by simp) hhex
      omega)
  · cases t' with
    | cons c4 t'' => simp at hlen
    | nil =>
      obtain ⟨v0, hv0⟩ := Option.isSome_iff_exists.mp (hhex c0 (by simp))
      obtain ⟨v1, hv1⟩ := Option.isSome_iff_exists.mp (hhex c1 (by simp))
      obtain ⟨v2, hv2⟩ := Option.isSome_iff_exists.mp (hhex c2 (by simp))
      obtain ⟨v3, hv3⟩ := Option.isSome_iff_exists.mp (hhex c3 (by simp))
      have hb0 := hexVal_le c0 v0 hv0
      have hb1 := hexVal_le c1 v1 hv1
      have hb2 := hexVal_le c2 v2 hv2
      have hb3 := hexVal_le c3 v3 hv3
      have hg : g = v0 * 4096 + v1 * 256 + v2 * 16 + v3 := by
        rw [hval, hexNat_four, hv0, hv1, hv2, hv3]
        rfl
      refine ⟨c0, c1, [c2, c3], rfl, ?_, ?_, ?_⟩
      · intro hhi
        have e0 : v0 = 15 := by omega
        have e1 : v1 = 12 ∨ v1 = 13 := by omega
        refine ⟨(hexVal_char_of_val c0 v0 hv0).1 e0, ?_⟩
        rcases e1 with e1 | e1
        · exact Or.inl ((hexVal_char_of_val c1 v1 hv1).2.2.2.1 e1)
        · exact Or.inr ((hexVal_char_of_val c1 v1 hv1).2.2.1 e1)
      · rintro ⟨hlo, hhi⟩
        have e0 : v0 = 15 := by omega
        have e1 : v1 = 14 := by omega
        have e2 : v2 = 8 ∨ v2 = 9 ∨ v2 = 10 ∨ v2 = 11 := by omega
        refine ⟨(hexVal_char_of_val c0 v0 hv0).1 e0,
          (hexVal_char_of_val c1 v1 hv1).2.1 e1, c2, [c3], rfl, ?_⟩
        rcases e2 with e2 | e2 | e2 | e2
        · exact Or.inl ((hexVal_char_of_val c2 v2 hv2).2.2.2.2.2.2.2 e2)
        · exact Or.inr (Or.inl ((hexVal_char_of_val c2 v2 hv2).2.2.2.2.2.2.1 e2))
        · exact Or.inr (Or.inr (Or.inl ((hexVal_char_of_val c2 v2 hv2).2.2.2.2.2.1 e2)))
        · exact Or.inr (Or.inr (Or.inr ((hexVal_char_of_val c2 v2 hv2).2.2.2.2.1 e2)))
      · intro hlo
        have e0 : v0 = 15 := by omega
        have e1 : v1 = 15 := by omega
        exact ⟨(hexVal_char_of_val c0 v0 hv0).1 e0,
          (hexVal_char_of_val c1 v1 hv1).1 e1⟩

/-- Each chunk contributes at most two 16-bit groups. -/
theorem parseChunks_length (cs : List (List Char)) (v4ok : Bool)
    (gs : List Nat) (h : parseChunks cs v4ok = some gs) :
    gs.length ≤ 2 * cs.length := by
  induction cs generalizing gs with
  | nil =>
    unfold parseChunks at h
    injection h with h'
    simp [← h']
  | cons c rest ih =>
    cases rest with
    | nil =>
      unfold parseChunks at h
      split at h
      · injection h with h'
        simp [← h']
      · split at h
        · cases hv : parseV4Chunk c with
          | none => rw [hv] at h; cases h
          | some p =>
            rw [hv] at h
            injection h with h'
            simp [← h']
        · cases h
    | cons c2 rest2 =>
      unfold parseChunks at h
      split at h
      · rename_i g gs' hg hgs
        injection h with h'
        have := ih gs' hgs
        rw [← h']
        simp at this ⊢
        omega
      · cases h

/-- Head inversion for `parseChunks` on a non-empty chunk list. -/
theorem parseChunks_head (c : List Char) (cs : List (List Char))
    (v4ok : Bool) (g : Nat) (gs : List Nat)
    (h : parseChunks (c :: cs) v4ok = some (g :: gs)) :
    parseHexChunk c = some g ∨
    (cs = [] ∧ v4ok = true ∧ ∃ p, parseV4Chunk c = some p ∧ g = p.1 ∧ gs = [p.2]) := by
  cases cs with
  | nil =>
    unfold parseChunks at h
    split at h
    · rename_i g' hg
      injection h with h'
      injection h' with h1 h2
      subst h1
      exact Or.inl hg
    · split at h
      · rename_i hv4
        cases hv : parseV4Chunk c with
        | none => rw [hv] at h; cases h
        | some p =>
          rw [hv] at h
          injection h with h'
          injection h' with h1 h2
          exact Or.inr ⟨rfl, hv4, p, rfl, h1.symm, h2.symm⟩
      · cases h
  | cons c2 rest2 =>
    unfold parseChunks at h
    split at h
    · rename_i g' gs' hg hgs
      injection h with h'
      injection h' with h1 h2
      subst h1
      exact Or.inl hg
    · cases h

/-- A non-empty group list forces a non-empty input side whose first
colon-chunk parses to the first group (or is a final dotted quad). -/
theorem parseGroupSeq_cons (l : List Char) (v4ok : Bool) (g : Nat)
    (gs : List Nat) (h : parseGroupSeq l v4ok = some (g :: gs)) :
    l ≠ [] ∧ ∃ c cs, splitOnChar ':' l = c :: cs ∧
      parseChunks (c :: cs) v4ok = some (g :: gs) := by
  unfold parseGroupSeq at h
  split at h
  · cases h
  · rename_i hne
    refine ⟨hne, ?_⟩
    cases hsp : splitOnChar ':' l with
    | nil => exact absurd hsp (splitOnChar_ne_nil ':' l)
    | cons c cs =>
      rw [hsp] at h
      exact ⟨c, cs, rfl, h⟩

/-- Structure of a successful `splitDoubleColon`: the input is the left
part, a literal `::`, then the right part. -/
theorem sdc_struct (l : List Char) : ∀ x y,
    splitDoubleColon l = some (x, y) → l = x ++ ':' :: ':' :: y := by
  induction l with
  | nil => intro x y h; cases h
  | cons c r ih =>
    intro x y h
    rw [splitDoubleColon.eq_def] at h
    split at h
    · cases h
    · rename_i r2 heq
      injection h with h'
      injection h' with h1 h2
      injection heq with e1 e2
      subst h1
      subst h2
      subst e1
      subst e2
      rfl
    · rename_i hno heq
      injection heq with e1 e2
      subst e1
      subst e2
      cases hrec : splitDoubleColon r with
      | none => rw [hrec] at h; cases h
      | some p =>
        obtain ⟨px, py⟩ := p
        rw [hrec] at h
        injection h with h'
        injection h' with h1 h2
        subst h2
        rw [← h1]
        rw [ih px py hrec]
        rfl

/-- A replicate-of-zeros block at the front forces head 0. -/
theorem headD_replicate_append (n : Nat) (hn : 1 ≤ n) (rg : List Nat) :
    (List.replicate n 0 ++ rg).headD 0 = 0 := by
  cases n with
  | zero => omega
  | succ m => simp [List.replicate_succ]

/-- Main first-group lemma: a parsed IPv6 group list whose head is at least
0xfc00 comes from a leading hex chunk that is a textual prefix of the
input. -/
theorem parseIPv6core_head (l : List Char) (gs : List Nat)
    (h : parseIPv6core l = some gs) (hge : 0xfc00 ≤ gs.headD 0) :
    ∃ t rest, l = t ++ rest ∧ parseHexChunk t = some (gs.headD 0) := by
  unfold parseIPv6core at h
  split at h
  · rename_i lft rgt heq
    split at h
    · rename_i lg rg hlg hrg
      split at h
      · rename_i hlen
        injection h with h'
        cases lg with
        | nil =>
          exfalso
          rw [← h'] at hge
          simp only [List.nil_append, List.length_nil, Nat.zero_add] at hge
          rw [headD_replicate_append (8 - rg.length) (by simp at hlen ⊢; omega) rg] at hge
          omega
        | cons g lg' =>
          have hhead : gs.headD 0 = g := by
            rw [← h']
            simp
          obtain ⟨hne, c, cs, hsp, hch⟩ := parseGroupSeq_cons lft false g lg' hlg
          rcases parseChunks_head c cs false g lg' hch with hhex | ⟨-, hfalse, -⟩
          · obtain ⟨t1, hlft⟩ := splitOnChar_head_prefix ':' lft c cs hsp
            refine ⟨c, t1 ++ ':' :: ':' :: rgt, ?_, ?_⟩
            · rw [sdc_struct l lft rgt heq, hlft]
              simp
            · rw [hhead]
              exact hhex
          · cases hfalse
      · cases h
    · cases h
  · rename_i heq
    split at h
    · rename_i gs' hgs
      split at h
      · rename_i hlen8
        injection h with h'
        subst h'
        cases hgc : gs' with
        | nil =>
          rw [hgc] at hlen8
          cases hlen8
        | cons g gs'' =>
          rw [hgc] at hgs hlen8
          have hhead : (g :: gs'').headD 0 = g := rfl
          obtain ⟨hne, c, cs, hsp, hch⟩ := parseGroupSeq_cons l true g gs'' hgs
          rcases parseChunks_head c cs true g gs'' hch with hhex | ⟨-, -, p, -, -, hgs2⟩
          · obtain ⟨t1, hl⟩ := splitOnChar_head_prefix ':' l c cs hsp
            exact ⟨c, t1, hl, by rw [hhead]; exact hhex⟩
          · exfalso
            rw [hgs2] at hlen8
            simp at hlen8
      · cases h
    · cases h

/-- A successful IPv6 parse implies a colon in the input. -/
theorem parseIPv6core_colon (l : List Char) (gs : List Nat)
    (h : parseIPv6core l = some gs) : ':' ∈ l := by
  unfold parseIPv6core at h
  split at h
  · rename_i lft rgt heq
    rw [sdc_struct l lft rgt heq]
    simp
  · rename_i heq
    split at h
    · rename_i gs' hgs
      split at h
      · rename_i hlen8
        injection h with h'
        subst h'
        unfold parseGroupSeq at hgs
        split at hgs
        · injection hgs with h''
          rw [← h''] at hlen8
          cases hlen8
        · have hl := parseChunks_length (splitOnChar ':' l) true gs' hgs
          rw [hlen8] at hl
          cases hsp : splitOnChar ':' l with
          | nil => exact absurd hsp (splitOnChar_ne_nil ':' l)
          | cons c cs =>
            cases cs with
            | nil =>
              rw [hsp] at hl
              simp at hl
            | cons p ps => exact sep_mem_of_split_cons₂ ':' l c p ps hsp
      · cases h
    · cases h

/-- Valid dotted quads consist solely of digits and dots. -/
theorem parseIPv4_chars (s : List Char) (a b c d : Nat)
    (h : parseIPv4 s = some (a, b, c, d)) (x : Char) (hx : x ∈ s) :
    (digitVal x).isSome = true ∨ x = '.' := by
  obtain ⟨t1, t2, t3, t4, hsp, h1, h2, h3, h4⟩ := parseIPv4_inv s a b c d h
  have hj := unsplit_splitOnChar '.' s
  rw [hsp] at hj
  rw [← hj] at hx
  rcases mem_unsplit '.' [t1, t2, t3, t4] x hx with ⟨p, hp, hxp⟩ | he
  · have hdig : ∀ ch ∈ p, (digitVal ch).isSome = true := by
      have hp' : p = t1 ∨ p = t2 ∨ p = t3 ∨ p = t4 := by simpa using hp
      rcases hp' with hp' | hp' | hp' | hp'
      · exact hp' ▸ (parseOctet_inv t1 a h1).2.2.1
      · exact hp' ▸ (parseOctet_inv t2 b h2).2.2.1
      · exact hp' ▸ (parseOctet_inv t3 c h3).2.2.1
      · exact hp' ▸ (parseOctet_inv t4 d h4).2.2.1
    exact Or.inl (hdig x hxp)
  · exact Or.inr he

/-- The map `lowerChar` sends no character to a colon except the colon itself. -/
theorem lowerChar_colon (ch : Char) (h : lowerChar ch = ':') : ch = ':' := by
  unfold lowerChar at h
  split at h <;> simp_all

/-- A colon in the lower-cased string refutes a dotted-quad parse. -/
theorem no_v4_of_colon (s : List Char) (hc : ':' ∈ lower s) :
    parseIPv4 s = none := by
  cases h4 : parseIPv4 s with
  | none => rfl
  | some q =>
    exfalso
    obtain ⟨a, b, c, d⟩ := q
    rcases List.mem_map.mp hc with ⟨ch, hch, hl⟩
    rw [lowerChar_colon ch hl] at hch
    rcases parseIPv4_chars s a b c d h4 ':' hch with hd | hdot
    · simp [digitVal] at hd
    · cases hdot

/-- An accepted IPv6 literal is not an accepted IPv4 literal. -/
theorem parseIPv6_v4_none (s : List Char) (gs : List Nat)
    (h : parseIPv6 s = some gs) : parseIPv4 s = none :=
  no_v4_of_colon s (parseIPv6core_colon (lower s) gs h)

/-- The Trust Classifier's IPv6 branch blocks the three prefix ranges for
every valid textual spelling. -/
theorem v6_private_of_spec (s : List Char) (gs : List Nat)
    (h6 : parseIPv6 s = some gs) (hh : specV6HeadBlocked (gs.headD 0)) :
    isPrivateIPv6 s = true := by
  have hge : 0xfc00 ≤ gs.headD 0 := by
    rcases hh with ⟨h1, _⟩ | ⟨h1, _⟩ | ⟨h1, _⟩ <;> omega
  obtain ⟨t, rest, hl, hchunk⟩ := parseIPv6core_head (lower s) gs h6 hge
  obtain ⟨c0, c1, r2, ht, hfc, hfe, hff⟩ :=
    hexChunk_range_chars t (gs.headD 0) hchunk hge
  unfold isPrivateIPv6
  rcases hh with ⟨hlo, hhi⟩ | ⟨hlo, hhi⟩ | ⟨hlo, hhi⟩
  · obtain ⟨hc0, hc1⟩ := hfc hhi
    subst hc0
    subst ht
    rcases hc1 with hc1 | hc1 <;> subst hc1 <;> rw [hl] <;>
      simp [startsWithL, show chars "fc" = ['f', 'c'] from rfl,
        show chars "fd" = ['f', 'd'] from rfl]
  · obtain ⟨hc0, hc1, c2, r3, hr2, hc2⟩ := hfe ⟨hlo, hhi⟩
    subst hc0
    subst hc1
    subst hr2
    subst ht
    rcases hc2 with hc2 | hc2 | hc2 | hc2 <;> subst hc2 <;> rw [hl] <;>
      simp [startsWithL, show chars "fe8" = ['f', 'e', '8'] from rfl,
        show chars "fe9" = ['f', 'e', '9'] from rfl,
        show chars "fea" = ['f', 'e', 'a'] from rfl,
        show chars "feb" = ['f', 'e', 'b'] from rfl]
  · obtain ⟨hc0, hc1⟩ := hff hlo
    subst hc0
    subst hc1
    subst ht
    rw [hl]
    simp [startsWithL, show chars "ff" = ['f', 'f'] from rfl]

/-- The two exact spellings the classifier compares against are blocked. -/
theorem exact_unspec_blocked (s : List Char)
    (h : lower s = chars "::" ∨ lower s = chars "::1") :
    isBlockedIp true s = true := by
  have hcolon : ':' ∈ lower s := by
    rcases h with h | h <;> rw [h] <;> decide
  have h4 := no_v4_of_colon s hcolon
  unfold isBlockedIp isIP
  rw [h4]
  cases h6 : parseIPv6 s with
  | none => simp
  | some gs =>
    simp only [Option.isSome_none, Option.isSome_some, Bool.false_eq_true,
      if_false, if_true]
    have hp : isPrivateIPv6 s = true := by
      unfold isPrivateIPv6
      rcases h with h | h <;> simp [h]
    simp [hp]

/-- Claim C5 (counterexample): `0::1` is a syntactically valid IPv6 address
whose value is the loopback `::1` — squarely inside the enumerated ranges —
yet with trust enforcement enabled the classifier does NOT block it, because
the loopback check is a literal string comparison with `::`/`::1`. -/
theorem loopback_alt_spelling_not_blocked :
    specBlockedAddr (chars "0::1") ∧
    isBlockedIp true (chars "0::1") = false := by
  constructor
  · exact Or.inr ⟨List.replicate 7 0 ++ [1], by decide,
      Or.inr (Or.inr (by decide))⟩
  · decide

/-- Claim C5 (amended): with trust enforcement enabled, every valid address
in the enumerated IPv4 ranges is blocked under any valid spelling, every
valid IPv6 address in fc00::/7, fe80::/10 or ff00::/8 is blocked under any
valid spelling, and the IPv6 unspecified/loopback addresses are blocked in
the exact spellings `::` and `::1` (case-insensitively) which are the only
spellings the classifier recognises for them. -/
theorem blocked_ranges_amended (s : List Char)
    (h : specBlockedAddrAmended s) : isBlockedIp true s = true := by
  rcases h with ⟨a, b, c, d, h4, hb⟩ | ⟨gs, h6, hh⟩ | hx | hx
  · unfold isBlockedIp isIP
    rw [h4]
    simp only [Option.isSome_some, if_true]
    have hpriv := v4_private_of_spec s a b c d h4 hb
    simp [hpriv]
  · have h4n := parseIPv6_v4_none s gs h6
    unfold isBlockedIp isIP
    rw [h4n, h6]
    have hpriv := v6_private_of_spec s gs h6 hh
    simp [hpriv]
  · exact exact_unspec_blocked s (Or.inl hx)
  · exact exact_unspec_blocked s (Or.inr hx)

/-- Witness for `blocked_ranges_amended`: one address from each family
(IPv4 `10.0.0.1`, IPv6 `fc00::1`, and the exact loopback spelling `::1`). -/
theorem blocked_ranges_amended_w :
    isBlockedIp true (chars "10.0.0.1") = true ∧
    isBlockedIp true (chars "fc00::1") = true ∧
    isBlockedIp true (chars "::1") = true :=
  ⟨blocked_ranges_amended (chars "10.0.0.1")
      (Or.inl ⟨10, 0, 0, 1, by decide, Or.inl rfl⟩),
   blocked_ranges_amended (chars "fc00::1")
      (Or.inr (Or.inl ⟨0xfc00 :: List.replicate 6 0 ++ [1], by decide,
        Or.inl (by decide)⟩)),
   blocked_ranges_amended (chars "::1") (Or.inr (Or.inr (Or.inr (by decide))))⟩

end Swp
